import Mathlib

/-!
Verification development for the `py_trees` context-switching demo.

The file embeds, as Lean definitions, the behaviour-tree data model and the
ticking and lifecycle protocol that the demo program exercises, and proves the
specified properties about them.  The demo file
`py_trees/demos/context_switching.py` (the `ContextSwitch` behaviour,
`create_tree` and the `main` driver loop) is embedded from its source; the
engine itself (`Behaviour.tick`, `Sequence`, `Parallel`, `Count`) is not part
of the available sources and is modelled from the specification, as indicated
on each such definition.
-/

set_option maxHeartbeats 1600000

namespace PyTrees

/-- Modelled from the spec: the four-valued status domain of a behaviour,
with INVALID the rest state before the first tick and after termination. -/
inductive Status where
  | invalid
  | running
  | success
  | failure
deriving DecidableEq, Repr

/-- Modelled from the spec: the combination policy attached to a Parallel
composite (the demo uses SUCCESS_ON_ONE). -/
inductive ParallelPolicy where
  | successOnOne
  | successOnAll
deriving DecidableEq, Repr

/-- Lifecycle events observed during a tick: an `initialise` call or a
`terminate new_status` call on the behaviour with the given name. -/
inductive Event where
  | init (name : String)
  | term (name : String) (newStatus : Status)
deriving DecidableEq, Repr

/-- Name carried by a lifecycle event. -/
def Event.evName : Event → String
  | .init n => n
  | .term n _ => n

mutual
/-- Modelled from the spec: the behaviour-tree node kinds the demo needs.
A tree is a fixed static structure of nodes; each node carries its name and
current status.  The two leaf kinds are the `ContextSwitch` behaviour of the
demo source (whose per-instance state is its `feedback_message`) and the
counting behaviour `py_trees.behaviours.Count` used by `create_tree` (whose
per-instance state is its counter).  Composites own an ordered list of
children; a Sequence additionally remembers the index of the child it is up
to. -/
inductive BT where
  | ctx (name : String) (status : Status) (feedback : String)
  | cnt (name : String) (failUntil runningUntil successUntil count : Nat) (status : Status)
  | seq (name : String) (status : Status) (cur : Nat) (children : BTList)
  | par (name : String) (policy : ParallelPolicy) (status : Status) (children : BTList)
/-- Ordered list of child behaviours of a composite. -/
inductive BTList where
  | nil
  | cons (hd : BT) (tl : BTList)
end

deriving instance DecidableEq for BT, BTList

/-- Plain list of the children of a `BTList`. -/
def BTList.toList : BTList → List BT
  | .nil => []
  | .cons c r => c :: r.toList

/-- Name of a node. -/
def BT.name : BT → String
  | .ctx n _ _ => n
  | .cnt n _ _ _ _ _ => n
  | .seq n _ _ _ => n
  | .par n _ _ _ => n

/-- Current status of a node. -/
def BT.status : BT → Status
  | .ctx _ st _ => st
  | .cnt _ _ _ _ _ st => st
  | .seq _ st _ _ => st
  | .par _ _ st _ => st

/-- Children of a node as a plain list (empty for leaves). -/
def BT.childList : BT → List BT
  | .seq _ _ _ cs => cs.toList
  | .par _ _ _ cs => cs.toList
  | _ => []

/-- Child of a node at a given index. -/
def BT.childAt (b : BT) (i : Nat) : Option BT := b.childList.get? i

/-- Progress index of a Sequence node (0 for other nodes). -/
def BT.curOf : BT → Nat
  | .seq _ _ c _ => c
  | _ => 0

/-- Combination policy of a Parallel node. -/
def BT.policyOf : BT → Option ParallelPolicy
  | .par _ pol _ _ => some pol
  | _ => none

/-- Feedback message of a ContextSwitch node. -/
def BT.feedbackOf : BT → String
  | .ctx _ _ fb => fb
  | _ => ""

/-- Constructor parameters (fail_until, running_until, success_until) of a
Count node. -/
def BT.cntParams : BT → Option (Nat × Nat × Nat)
  | .cnt _ f r s _ _ => some (f, r, s)
  | _ => none

/-- Statuses of the children of a list, in order. -/
def BTList.statuses (cs : BTList) : List Status := cs.toList.map BT.status

/-- Source `ContextSwitch.__init__` (context_switching.py lines 66-68): the
initial `feedback_message` of a fresh instance. -/
def contextSwitchInitFeedback : String := "old context"

/-- Source `ContextSwitch.initialise` (context_switching.py lines 70-75):
backup and set a new context; the feedback message becomes "new context"
whatever it was before. -/
def contextSwitchInitialise (_fb : String) : String := "new context"

/-- Source `ContextSwitch.terminate` (context_switching.py lines 84-89):
restore the context backed up in `initialise`; the feedback message becomes
"old context" regardless of the previous state and of `new_status`. -/
def contextSwitchTerminate (_newStatus : Status) (_fb : String) : String := "old context"

/-- Modelled from the spec: the `update` of `py_trees.behaviours.Count`,
which is not under src/.  The counter increments once per update; the spec
describes the instances used here as counters that keep RUNNING and then
reach SUCCESS ("CounterA(running_until=2, then SUCCESS)", "ticks 1-1 ->
RUNNING"): FAILURE while the count is at most `fail_until`, RUNNING while it
is below `running_until`, SUCCESS while it is at most `success_until`,
FAILURE beyond. -/
def countUpdate (failUntil runningUntil successUntil count : Nat) : Status :=
  if count ≤ failUntil then .failure
  else if count < runningUntil then .running
  else if count ≤ successUntil then .success
  else .failure

/-- Modelled from the spec: the Parallel combination policies, pure functions
over the vector of child statuses collected this tick.  SUCCESS_ON_ONE:
SUCCESS as soon as any child reports SUCCESS, FAILURE if all children report
FAILURE, otherwise RUNNING.  SUCCESS_ON_ALL: FAILURE if any child reports
FAILURE, SUCCESS only when every child reports SUCCESS, otherwise RUNNING. -/
def combine : ParallelPolicy → List Status → Status
  | .successOnOne, ss =>
      if Status.success ∈ ss then .success
      else if ss.all (· = Status.failure) then .failure
      else .running
  | .successOnAll, ss =>
      if Status.failure ∈ ss then .failure
      else if ss.all (· = Status.success) then .success
      else .running

mutual
/-- Modelled from the spec: `stop(INVALID)` on a node that is being
pre-empted.  A node that is RUNNING has its running descendants stopped,
receives one `terminate(INVALID)` call (for `ContextSwitch`, restoring the
context), and comes to rest at INVALID; a node that is not RUNNING holds no
context and is left untouched, so that terminate is called at most once per
transition. -/
def stopInv : BT → BT × List Event
  | .ctx n st fb =>
      if st = .running then
        (.ctx n .invalid (contextSwitchTerminate .invalid fb), [.term n .invalid])
      else (.ctx n st fb, [])
  | .cnt n f r s c st =>
      if st = .running then (.cnt n f r s c .invalid, [.term n .invalid])
      else (.cnt n f r s c st, [])
  | .seq n st cur cs =>
      if st = .running then
        let p := stopInvList cs
        (.seq n .invalid cur p.1, p.2 ++ [.term n .invalid])
      else (.seq n st cur cs, [])
  | .par n pol st cs =>
      if st = .running then
        let p := stopInvList cs
        (.par n pol .invalid p.1, p.2 ++ [.term n .invalid])
      else (.par n pol st cs, [])
/-- Modelled from the spec: pre-emption applied to each child in order. -/
def stopInvList : BTList → BTList × List Event
  | .nil => (.nil, [])
  | .cons c r =>
      let p := stopInv c
      let q := stopInvList r
      (.cons p.1 q.1, p.2 ++ q.2)
end

/-- Result of ticking the children of a Sequence from its progress index. -/
structure SeqRes where
  children : BTList
  status : Status
  cur : Nat
  events : List Event

mutual
/-- Modelled from the spec: one tick of a behaviour, returning the new node
and the lifecycle events raised during the tick.  A node whose status is not
RUNNING is entered fresh: `initialise` runs first (for `ContextSwitch`,
switching to the new context; for a Sequence, resetting its progress index).
Then `update` runs (for leaves) or the children are ticked per the composite
policy, and a node that concludes with SUCCESS or FAILURE receives its own
`terminate` call with that natural concluding status.  A Parallel ticks all
children in order every pass; when it concludes it additionally stops, via
`stopInv`, every child still RUNNING.  A Sequence ticks children in order
from its progress index and stops at the first RUNNING or FAILURE child,
leaving the remaining children untouched. -/
def tick : BT → BT × List Event
  | .ctx n st fb =>
      let fb0 := if st = .running then fb else contextSwitchInitialise fb
      let e0 : List Event := if st = .running then [] else [.init n]
      (.ctx n .running fb0, e0)
  | .cnt n f r s c st =>
      let e0 : List Event := if st = .running then [] else [.init n]
      let st1 := countUpdate f r s (c + 1)
      let e1 : List Event := if st1 = .running then [] else [.term n st1]
      (.cnt n f r s (c + 1) st1, e0 ++ e1)
  | .seq n st cur cs =>
      let cur0 := if st = .running then cur else 0
      let e0 : List Event := if st = .running then [] else [.init n]
      let r := seqTickFrom cur0 cs
      let e1 : List Event := if r.status = .running then [] else [.term n r.status]
      (.seq n r.status r.cur r.children, e0 ++ r.events ++ e1)
  | .par n pol st cs =>
      let e0 : List Event := if st = .running then [] else [.init n]
      let p := tickList cs
      let st1 := combine pol p.1.statuses
      if st1 = .running then (.par n pol .running p.1, e0 ++ p.2)
      else
        let q := stopInvList p.1
        (.par n pol st1 q.1, e0 ++ p.2 ++ q.2 ++ [.term n st1])
/-- Modelled from the spec: tick every child in order (Parallel pass). -/
def tickList : BTList → BTList × List Event
  | .nil => (.nil, [])
  | .cons c r =>
      let p := tick c
      let q := tickList r
      (.cons p.1 q.1, p.2 ++ q.2)
/-- Modelled from the spec: tick the children of a Sequence, skipping the
first `k` children (already SUCCESS on a previous pass of this run), then
ticking in order until a child reports RUNNING or FAILURE; if every child
reports SUCCESS the Sequence reports SUCCESS.  The returned `cur` is the
index of the child the Sequence is up to. -/
def seqTickFrom : Nat → BTList → SeqRes
  | _, .nil => ⟨.nil, .success, 0, []⟩
  | k + 1, .cons c r =>
      let q := seqTickFrom k r
      ⟨.cons c q.children, q.status, q.cur + 1, q.events⟩
  | 0, .cons c r =>
      let p := tick c
      match p.1.status with
      | .running => ⟨.cons p.1 r, .running, 0, p.2⟩
      | .failure => ⟨.cons p.1 r, .failure, 0, p.2⟩
      | _ =>
          let q := seqTickFrom 0 r
          ⟨.cons p.1 q.children, q.status, q.cur + 1, p.2 ++ q.events⟩
end

/-- State of a tree after `n` invocations of `tick_once`. -/
def afterTicks (b : BT) : Nat → BT
  | 0 => b
  | n + 1 => (tick (afterTicks b n)).1

/-- Events raised during tick number `n + 1` (the 1-based tick `i` of the
demo driver corresponds to `n = i - 1`). -/
def tickEvents (b : BT) (n : Nat) : List Event := (tick (afterTicks b n)).2

/-- Whether an event is an `initialise` call on the named behaviour. -/
def isInitFor (x : String) : Event → Bool
  | .init n => n == x
  | .term _ _ => false

/-- Whether an event is a `terminate` call on the named behaviour. -/
def isTermFor (x : String) : Event → Bool
  | .term n _ => n == x
  | .init _ => false

/-- Number of `initialise` calls on the named behaviour in an event list. -/
def countInit (x : String) (evs : List Event) : Nat := (evs.filter (isInitFor x)).length

/-- Number of `terminate` calls on the named behaviour in an event list. -/
def countTerm (x : String) (evs : List Event) : Nat := (evs.filter (isTermFor x)).length

mutual
/-- Names of all nodes of a tree, root first. -/
def BT.names : BT → List String
  | .ctx n _ _ => [n]
  | .cnt n _ _ _ _ _ => [n]
  | .seq n _ _ cs => n :: cs.namesL
  | .par n _ _ cs => n :: cs.namesL
/-- Names of all nodes of a list of trees. -/
def BTList.namesL : BTList → List String
  | .nil => []
  | .cons c r => c.names ++ r.namesL
end

/-- Source `create_tree` (context_switching.py lines 92-104): a Count leaf as
constructed there, with `fail_until=0`, `running_until=2`, `success_until=10`
and a fresh counter. -/
def mkCount (n : String) : BT := .cnt n 0 2 10 0 .invalid

/-- Source `create_tree` (context_switching.py lines 92-104): a
SUCCESS_ON_ONE Parallel over the ContextSwitch named "Context" and the
Sequence of the two Count actions. -/
def create_tree : BT :=
  .par "Parallel" .successOnOne .invalid
    (.cons (.ctx "Context" .invalid contextSwitchInitFeedback)
      (.cons
        (.seq "Sequence" .invalid 0
          (.cons (mkCount "Action 1") (.cons (mkCount "Action 2") .nil)))
        .nil))

/-- Raw value returned by an `update` implementation: either a member of the
four-valued status domain or some value outside it. -/
inductive RawStatus where
  | valid (s : Status)
  | invalidValue (tag : Nat)
deriving DecidableEq

/-- Modelled from the spec: the engine-side check on the value returned by
`update`.  A value outside the four-valued status domain is a contract
violation: the tick fails fast with an error rather than producing a tree
outcome. -/
def checkUpdateResult : RawStatus → Except String Status
  | .valid s => .ok s
  | .invalidValue _ => .error "update returned a value outside the status domain"

/-- Modelled from the spec: one checked tick of a single behaviour named `n`
whose current status is `st` and whose `update` returned `raw`.  The
lifecycle is that of `tick`: initialise on fresh entry, then the update
result is validated; an out-of-domain result aborts the tick as a defect,
otherwise the behaviour stores the status and self-terminates on a natural
conclusion. -/
def behaviourTickChecked (n : String) (st : Status) (raw : RawStatus) :
    Except String (Status × List Event) :=
  let e0 : List Event := if st = .running then [] else [.init n]
  match checkUpdateResult raw with
  | .error msg => .error msg
  | .ok s1 =>
      let e1 : List Event := if s1 = .running then [] else [.term n s1]
      .ok (s1, e0 ++ e1)

/-- Point during a driver-loop iteration at which a KeyboardInterrupt
arrives, if any. -/
inductive InterruptAt where
  | none
  | beforeTick
  | afterTick
deriving DecidableEq

/-- Source `main` (context_switching.py lines 131-141): the driver loop.
Each iteration ticks the tree once and then paces itself; a
KeyboardInterrupt raised during the iteration breaks out of the loop without
re-raising.  The interrupt schedule lists, per iteration, whether and when an
interrupt arrives; iterations beyond the end of the schedule are not
interrupted.  Returns the final tree and the number of ticks performed. -/
def driverLoop : Nat → List InterruptAt → BT → BT × Nat
  | 0, _, b => (b, 0)
  | n + 1, [], b =>
      let p := driverLoop n [] (tick b).1
      (p.1, p.2 + 1)
  | n + 1, .none :: rest, b =>
      let p := driverLoop n rest (tick b).1
      (p.1, p.2 + 1)
  | _ + 1, .beforeTick :: _, b => (b, 0)
  | _ + 1, .afterTick :: _, b => ((tick b).1, 1)

/-- Source `main` (context_switching.py lines 131-141): without `--render`
the driver runs at most five iterations over the demo tree. -/
def demoMain (sched : List InterruptAt) : BT × Nat := driverLoop 5 sched create_tree

/-- Whether a node is a ContextSwitch leaf. -/
def BT.isContextSwitchNode : BT → Bool
  | .ctx _ _ _ => true
  | _ => false

/-- Whether a node is a Count leaf. -/
def BT.isCountNode : BT → Bool
  | .cnt _ _ _ _ _ _ => true
  | _ => false

/-- Whether a node is a Sequence composite. -/
def BT.isSequenceNode : BT → Bool
  | .seq _ _ _ _ => true
  | _ => false

/-- Whether a node is a Parallel composite. -/
def BT.isParallelNode : BT → Bool
  | .par _ _ _ _ => true
  | _ => false

/-- Names of all nodes of a plain list of trees. -/
def namesOfList (l : List BT) : List String := (l.map BT.names).flatten

/-! ## Driver-loop lemmas -/

theorem driverLoop_ticks_le (n : Nat) :
    ∀ sched b, (driverLoop n sched b).2 ≤ n := by
  induction n with
  | zero => intro sched b; simp [driverLoop]
  | succ n ih =>
      intro sched b
      match sched with
      | [] => simpa [driverLoop] using Nat.succ_le_succ (ih [] (tick b).1)
      | .none :: rest => simpa [driverLoop] using Nat.succ_le_succ (ih rest (tick b).1)
      | .beforeTick :: rest => simp [driverLoop]
      | .afterTick :: rest => simp [driverLoop]

theorem driverLoop_all_none (n : Nat) :
    ∀ sched b, (∀ x ∈ sched, x = InterruptAt.none) →
      (driverLoop n sched b).2 = n := by
  induction n with
  | zero => intro sched b _; simp [driverLoop]
  | succ n ih =>
      intro sched b h
      match sched with
      | [] => simpa [driverLoop] using ih [] (tick b).1 (by intro x hx; cases hx)
      | .none :: rest =>
          simpa [driverLoop] using ih rest (tick b).1 (fun x hx => h x (by simp [hx]))
      | .beforeTick :: rest => exact absurd (h .beforeTick (by simp)) (by simp)
      | .afterTick :: rest => exact absurd (h .afterTick (by simp)) (by simp)

theorem tail_getD (sched : List InterruptAt) (j : Nat) (d : InterruptAt) :
    sched.tail.getD j d = sched.getD (j + 1) d := by
  cases sched <;> rfl

theorem driverLoop_first_interrupt (n : Nat) :
    ∀ sched (b : BT) k, k < n →
      (∀ j, j < k → sched.getD j InterruptAt.none = InterruptAt.none) →
      ((sched.getD k InterruptAt.none = InterruptAt.beforeTick →
          (driverLoop n sched b).2 = k)
       ∧ (sched.getD k InterruptAt.none = InterruptAt.afterTick →
          (driverLoop n sched b).2 = k + 1)) := by
  induction n with
  | zero => intro sched b k hk; omega
  | succ n ih =>
      intro sched b k hk hpre
      match sched with
      | [] =>
          constructor <;> intro h <;> simp [List.getD] at h
      | (i : InterruptAt) :: rest =>
          cases k with
          | zero =>
              constructor <;> intro h <;> simp [List.getD] at h <;> subst h <;>
                simp [driverLoop]
          | succ k =>
              have hh : i = InterruptAt.none := by
                have := hpre 0 (Nat.succ_pos k)
                simpa [List.getD] using this
              subst hh
              have hpre' : ∀ j, j < k →
                  rest.getD j InterruptAt.none = InterruptAt.none := by
                intro j hj
                have := hpre (j + 1) (Nat.succ_lt_succ hj)
                simpa [List.getD] using this
              have hrec := ih rest (tick b).1 k (Nat.lt_of_succ_lt_succ hk) hpre'
              constructor
              · intro h
                have h' : rest.getD k InterruptAt.none = InterruptAt.beforeTick := by
                  simpa [List.getD] using h
                simp only [driverLoop]
                simpa using hrec.1 h'
              · intro h
                have h' : rest.getD k InterruptAt.none = InterruptAt.afterTick := by
                  simpa [List.getD] using h
                simp only [driverLoop]
                simpa using hrec.2 h'

/-! ## Claim theorems: concrete demo behaviour -/

/-- C1: in the demo tree the context-setting behaviour "Context", placed in a
Parallel alongside the multi-tick Sequence, receives `initialise` on its
first tick, receives no `terminate` while the Parallel is still RUNNING
(ticks 1 and 2), and receives exactly one `terminate` on each tick on which
the Parallel concludes (tick 3, and again on the re-entered runs of ticks 4
and 5), each conclusion delivering the call before the behaviour is
re-entered. -/
theorem context_switch_lifecycle_demo :
    countInit "Context" (tickEvents create_tree 0) = 1
    ∧ countInit "Context" (tickEvents create_tree 1) = 0
    ∧ countInit "Context" (tickEvents create_tree 2) = 0
    ∧ (afterTicks create_tree 1).status = Status.running
    ∧ (afterTicks create_tree 2).status = Status.running
    ∧ (afterTicks create_tree 3).status = Status.success
    ∧ countTerm "Context" (tickEvents create_tree 0) = 0
    ∧ countTerm "Context" (tickEvents create_tree 1) = 0
    ∧ countTerm "Context" (tickEvents create_tree 2) = 1
    ∧ countInit "Context" (tickEvents create_tree 3) = 1
    ∧ countTerm "Context" (tickEvents create_tree 3) = 1
    ∧ (afterTicks create_tree 4).status = Status.success
    ∧ countInit "Context" (tickEvents create_tree 4) = 1
    ∧ countTerm "Context" (tickEvents create_tree 4) = 1
    ∧ (afterTicks create_tree 5).status = Status.success := by
  decide

/-- C2, counterexample: after tick 2 the demo Parallel is still RUNNING (its
Sequence child is still RUNNING), no `terminate` reached "Context" during
tick 2, and the feedback message is still "new context" — so the claim that
by tick 2 the Sequence and the Parallel return SUCCESS with
`ContextSwitch.terminate` invoked on tick 2 is false. -/
theorem demo_tick2_not_concluded :
    (afterTicks create_tree 2).status = Status.running
    ∧ ((afterTicks create_tree 2).childAt 1).map BT.status = some Status.running
    ∧ countTerm "Context" (tickEvents create_tree 1) = 0
    ∧ ((afterTicks create_tree 2).childAt 0).map BT.feedbackOf = some "new context" := by
  decide

/-- C2, amended: tick 1 and tick 2 return RUNNING; on tick 3 the inner
Sequence returns SUCCESS, the Parallel returns SUCCESS, and
`ContextSwitch.terminate` is invoked exactly once on tick 3, with the
feedback message transitioning from "new context" to "old context". -/
theorem demo_trace_concludes_tick3 :
    (afterTicks create_tree 1).status = Status.running
    ∧ (afterTicks create_tree 2).status = Status.running
    ∧ ((afterTicks create_tree 3).childAt 1).map BT.status = some Status.success
    ∧ (afterTicks create_tree 3).status = Status.success
    ∧ countTerm "Context" (tickEvents create_tree 0) = 0
    ∧ countTerm "Context" (tickEvents create_tree 1) = 0
    ∧ countTerm "Context" (tickEvents create_tree 2) = 1
    ∧ ((afterTicks create_tree 2).childAt 0).map BT.feedbackOf = some "new context"
    ∧ ((afterTicks create_tree 3).childAt 0).map BT.feedbackOf = some "old context" := by
  decide

/-- C7: an `update` result outside the four-valued status domain is a
contract violation: the checked behaviour tick fails fast with an error and
never produces a tree outcome, whereas every in-domain result produces the
normal lifecycle outcome; for an update returning RUNNING the checked tick
agrees with the embedded `tick` of the ContextSwitch leaf, whose `update`
returns RUNNING. -/
theorem update_contract_violation_fails_fast :
    (∀ n st t, behaviourTickChecked n st (RawStatus.invalidValue t)
        = Except.error "update returned a value outside the status domain")
    ∧ (∀ n st s, behaviourTickChecked n st (RawStatus.valid s)
        = Except.ok (s, (if st = Status.running then [] else [Event.init n])
            ++ (if s = Status.running then [] else [Event.term n s])))
    ∧ (∀ n st fb, behaviourTickChecked n st (RawStatus.valid Status.running)
        = Except.ok (((tick (BT.ctx n st fb)).1).status, (tick (BT.ctx n st fb)).2)) := by
  refine ⟨fun n st t => rfl, fun n st s => rfl, fun n st fb => ?_⟩
  simp [behaviourTickChecked, checkUpdateResult, tick, BT.status]

/-- C7 witness: a concrete out-of-domain update result makes the checked
tick fail with the contract-violation error. -/
theorem update_contract_violation_fails_fast_witness :
    behaviourTickChecked "rogue" Status.invalid (RawStatus.invalidValue 7)
      = Except.error "update returned a value outside the status domain" :=
  update_contract_violation_fails_fast.1 "rogue" Status.invalid 7

/-- C8: the demo driver performs at most 5 ticks; with no interrupt it
performs exactly 5; and if the first KeyboardInterrupt arrives during
iteration `k + 1` (0-based `k`), the loop breaks out cleanly, having ticked
`k` times if the interrupt preceded that iteration's tick and `k + 1` times
if it followed it — in either case performing no further ticks. -/
theorem demo_driver_interrupts (sched : List InterruptAt) :
    (demoMain sched).2 ≤ 5
    ∧ ((∀ x ∈ sched, x = InterruptAt.none) → (demoMain sched).2 = 5)
    ∧ (∀ k, k < 5 →
        (∀ j, j < k → sched.getD j InterruptAt.none = InterruptAt.none) →
        ((sched.getD k InterruptAt.none = InterruptAt.beforeTick →
            (demoMain sched).2 = k)
         ∧ (sched.getD k InterruptAt.none = InterruptAt.afterTick →
            (demoMain sched).2 = k + 1))) := by
  refine ⟨driverLoop_ticks_le 5 sched create_tree,
    fun h => driverLoop_all_none 5 sched create_tree h,
    fun k hk hpre => driverLoop_first_interrupt 5 sched create_tree k hk hpre⟩

/-- C8 witness: with an interrupt arriving after the tick of iteration 2,
the driver performs exactly 2 ticks. -/
theorem demo_driver_interrupts_witness :
    (demoMain [InterruptAt.none, InterruptAt.afterTick]).2 = 2 :=
  ((demo_driver_interrupts [InterruptAt.none, InterruptAt.afterTick]).2.2 1
    (by decide) (by decide)).2 (by decide)

/-- C9: `ContextSwitch.terminate` always restores the feedback message to
"old context", the value established by `__init__`, independently of its
`new_status` argument and of the current state; it is idempotent, and
composing `initialise` with `terminate` restores the original value. -/
theorem ctx_terminate_idempotent_restores :
    (∀ s fb, contextSwitchTerminate s fb = contextSwitchInitFeedback)
    ∧ (∀ s s' fb, contextSwitchTerminate s (contextSwitchTerminate s' fb)
        = contextSwitchTerminate s' fb)
    ∧ (∀ s fb, contextSwitchTerminate s (contextSwitchInitialise fb)
        = contextSwitchInitFeedback) :=
  ⟨fun _ _ => rfl, fun _ _ _ => rfl, fun _ _ => rfl⟩

/-- C9 witness: at a concrete status and state, initialise-then-terminate
restores the feedback message to its original value. -/
theorem ctx_terminate_idempotent_restores_witness :
    contextSwitchTerminate Status.failure (contextSwitchInitialise "old context")
      = "old context" :=
  ctx_terminate_idempotent_restores.2.2 Status.failure "old context"

/-- C10: `create_tree` returns a Parallel root named "Parallel" with the
SUCCESS_ON_ONE policy and exactly two children in order: a ContextSwitch
named "Context" (feedback initially "old context"), then a Sequence named
"Sequence" whose two children are Count behaviours named "Action 1" and
"Action 2", each constructed with fail_until 0, running_until 2,
success_until 10, all initially INVALID. -/
theorem create_tree_shape :
    create_tree.isParallelNode = true
    ∧ create_tree.name = "Parallel"
    ∧ create_tree.policyOf = some ParallelPolicy.successOnOne
    ∧ create_tree.childList.length = 2
    ∧ (create_tree.childAt 0).map BT.isContextSwitchNode = some true
    ∧ (create_tree.childAt 0).map BT.name = some "Context"
    ∧ (create_tree.childAt 0).map BT.feedbackOf = some "old context"
    ∧ (create_tree.childAt 0).map BT.status = some Status.invalid
    ∧ (create_tree.childAt 1).map BT.isSequenceNode = some true
    ∧ (create_tree.childAt 1).map BT.name = some "Sequence"
    ∧ (create_tree.childAt 1).map (fun b => b.childList.map BT.name)
        = some ["Action 1", "Action 2"]
    ∧ (create_tree.childAt 1).map (fun b => b.childList.map BT.isCountNode)
        = some [true, true]
    ∧ (create_tree.childAt 1).map (fun b => b.childList.map BT.cntParams)
        = some [some (0, 2, 10), some (0, 2, 10)]
    ∧ (create_tree.childAt 1).map (fun b => b.childList.map BT.status)
        = some [Status.invalid, Status.invalid] := by
  decide

/-! ## Counting lemmas for lifecycle events -/

theorem countTerm_append (x : String) (a b : List Event) :
    countTerm x (a ++ b) = countTerm x a + countTerm x b := by
  simp [countTerm, List.filter_append]

theorem countInit_append (x : String) (a b : List Event) :
    countInit x (a ++ b) = countInit x a + countInit x b := by
  simp [countInit, List.filter_append]

theorem evName_of_isTermFor {x : String} {e : Event} (h : isTermFor x e = true) :
    e.evName = x := by
  cases e with
  | init n => simp [isTermFor] at h
  | term n s => simpa [isTermFor, Event.evName] using h

theorem evName_of_isInitFor {x : String} {e : Event} (h : isInitFor x e = true) :
    e.evName = x := by
  cases e with
  | init n => simpa [isInitFor, Event.evName] using h
  | term n s => simp [isInitFor] at h

theorem countTerm_eq_zero {x : String} {evs : List Event}
    (h : ∀ e ∈ evs, e.evName ≠ x) : countTerm x evs = 0 := by
  have hf : evs.filter (isTermFor x) = [] := by
    rw [List.filter_eq_nil_iff]
    exact fun e he hc => h e he (evName_of_isTermFor hc)
  simp [countTerm, hf]

theorem countInit_eq_zero {x : String} {evs : List Event}
    (h : ∀ e ∈ evs, e.evName ≠ x) : countInit x evs = 0 := by
  have hf : evs.filter (isInitFor x) = [] := by
    rw [List.filter_eq_nil_iff]
    exact fun e he hc => h e he (evName_of_isInitFor hc)
  simp [countInit, hf]

theorem countTerm_term_self (x : String) (s : Status) :
    countTerm x [Event.term x s] = 1 := by
  simp [countTerm, isTermFor]

theorem countTerm_single_init (x y : String) :
    countTerm x [Event.init y] = 0 := by
  simp [countTerm, isTermFor]

theorem countTerm_cons_init (x y : String) (evs : List Event) :
    countTerm x (Event.init y :: evs) = countTerm x evs := by
  simp [countTerm, isTermFor]

/-! ## Name lemmas -/

theorem BT.name_mem_names (b : BT) : b.name ∈ b.names := by
  cases b <;> simp [BT.name, BT.names]

theorem mem_namesL : ∀ (cs : BTList), ∀ c ∈ cs.toList, ∀ x ∈ c.names, x ∈ cs.namesL
  | .nil => by intro c hc; cases hc
  | .cons a r => by
      intro c hc x hx
      rcases (by simpa [BTList.toList] using hc : c = a ∨ c ∈ r.toList) with h | h
      · subst h
        simp only [BTList.namesL, List.mem_append]
        exact Or.inl hx
      · simp only [BTList.namesL, List.mem_append]
        exact Or.inr (mem_namesL r c h x hx)

theorem namesL_eq : ∀ cs : BTList, cs.namesL = namesOfList cs.toList
  | .nil => rfl
  | .cons a r => by
      simp [BTList.namesL, BTList.toList, namesOfList, namesL_eq r]

theorem namesOfList_append (l₁ l₂ : List BT) :
    namesOfList (l₁ ++ l₂) = namesOfList l₁ ++ namesOfList l₂ := by
  simp [namesOfList]

theorem mem_namesOfList {l : List BT} {c : BT} (hc : c ∈ l) {x : String}
    (hx : x ∈ c.names) : x ∈ namesOfList l := by
  rw [namesOfList, List.mem_flatten]
  exact ⟨c.names, List.mem_map_of_mem _ hc, hx⟩

/-! ## Status validity -/

theorem countUpdate_ne_invalid (f r s c : Nat) :
    countUpdate f r s c ≠ Status.invalid := by
  unfold countUpdate
  split
  · simp
  split
  · simp
  split
  · simp
  · simp

theorem combine_ne_invalid (pol : ParallelPolicy) (ss : List Status) :
    combine pol ss ≠ Status.invalid := by
  cases pol <;> simp only [combine] <;> split <;> (try split) <;> simp

theorem seqTickFrom_status_ne_invalid :
    ∀ (cs : BTList) (k : Nat), (seqTickFrom k cs).status ≠ Status.invalid
  | .nil, k => by cases k <;> simp [seqTickFrom]
  | .cons c r, k + 1 => by
      simpa [seqTickFrom] using seqTickFrom_status_ne_invalid r k
  | .cons c r, 0 => by
      have hrec := seqTickFrom_status_ne_invalid r 0
      cases h : (tick c).1.status <;> simp [seqTickFrom, h, hrec]

theorem tick_status_ne_invalid (b : BT) : ((tick b).1).status ≠ Status.invalid := by
  cases b with
  | ctx n st fb => simp [tick, BT.status]
  | cnt n f r s c st =>
      simpa [tick, BT.status] using countUpdate_ne_invalid f r s (c + 1)
  | seq n st cur cs =>
      simpa [tick, BT.status] using
        seqTickFrom_status_ne_invalid cs (if st = Status.running then cur else 0)
  | par n pol st cs =>
      simp only [tick]
      split
      · simp [BT.status]
      · simpa [BT.status] using combine_ne_invalid pol ((tickList cs).1).statuses

/-! ## Names are preserved by ticking and stopping -/

theorem tick_name (b : BT) : ((tick b).1).name = b.name := by
  cases b with
  | ctx n st fb => simp [tick, BT.name]
  | cnt n f r s c st => simp [tick, BT.name]
  | seq n st cur cs => simp [tick, BT.name]
  | par n pol st cs =>
      simp only [tick]
      split <;> simp [BT.name]

theorem stopInv_name (b : BT) : ((stopInv b).1).name = b.name := by
  cases b <;> simp only [stopInv] <;> split <;> simp [BT.name]

theorem tick_status_eq (b : BT) :
    ((tick b).1).status = match b with
      | .ctx _ _ _ => Status.running
      | .cnt _ f r s c _ => countUpdate f r s (c + 1)
      | .seq _ st cur cs =>
          (seqTickFrom (if st = Status.running then cur else 0) cs).status
      | .par _ pol _ cs => combine pol ((tickList cs).1).statuses := by
  cases b with
  | ctx n st fb => simp [tick, BT.status]
  | cnt n f r s c st => simp [tick, BT.status]
  | seq n st cur cs => simp [tick, BT.status]
  | par n pol st cs =>
      simp only [tick]
      split
      case isTrue h => simp [BT.status, h]
      case isFalse h => simp [BT.status]

mutual
theorem stopInv_names (b : BT) : ((stopInv b).1).names = b.names := by
  cases b with
  | ctx n st fb => simp only [stopInv]; split <;> simp [BT.names]
  | cnt n f r s c st => simp only [stopInv]; split <;> simp [BT.names]
  | seq n st cur cs =>
      simp only [stopInv]
      split <;> simp [BT.names, stopInvList_namesL cs]
  | par n pol st cs =>
      simp only [stopInv]
      split <;> simp [BT.names, stopInvList_namesL cs]
theorem stopInvList_namesL (cs : BTList) : ((stopInvList cs).1).namesL = cs.namesL := by
  cases cs with
  | nil => simp [stopInvList]
  | cons c r =>
      simp [stopInvList, BTList.namesL, stopInv_names c, stopInvList_namesL r]
end

mutual
theorem tick_names (b : BT) : ((tick b).1).names = b.names := by
  cases b with
  | ctx n st fb => simp [tick, BT.names]
  | cnt n f r s c st => simp [tick, BT.names]
  | seq n st cur cs =>
      simp [tick, BT.names,
        seqTickFrom_namesL cs (if st = Status.running then cur else 0)]
  | par n pol st cs =>
      simp only [tick]
      split <;> simp [BT.names, stopInvList_namesL, tickList_namesL cs]
theorem tickList_namesL (cs : BTList) : ((tickList cs).1).namesL = cs.namesL := by
  cases cs with
  | nil => simp [tickList]
  | cons c r =>
      simp [tickList, BTList.namesL, tick_names c, tickList_namesL r]
theorem seqTickFrom_namesL :
    ∀ (cs : BTList) (k : Nat), ((seqTickFrom k cs).children).namesL = cs.namesL
  | .nil, k => by cases k <;> simp [seqTickFrom]
  | .cons c r, k + 1 => by
      simp [seqTickFrom, BTList.namesL, seqTickFrom_namesL r k]
  | .cons c r, 0 => by
      cases h : (tick c).1.status <;>
        simp [seqTickFrom, h, BTList.namesL, tick_names c, seqTickFrom_namesL r 0]
end

/-! ## Event names come from the tree -/

mutual
theorem stopInv_evNames (b : BT) : ∀ e ∈ (stopInv b).2, e.evName ∈ b.names := by
  cases b with
  | ctx n st fb =>
      simp only [stopInv]
      split <;> simp [BT.names, Event.evName]
  | cnt n f r s c st =>
      simp only [stopInv]
      split <;> simp [BT.names, Event.evName]
  | seq n st cur cs =>
      simp only [stopInv]
      split
      · intro e he
        rcases (by simpa using he :
            e ∈ (stopInvList cs).2 ∨ e = Event.term n Status.invalid) with h1 | h1
        · simp only [BT.names, List.mem_cons]
          exact Or.inr (stopInvList_evNames cs e h1)
        · subst h1
          simp [BT.names, Event.evName]
      · simp
  | par n pol st cs =>
      simp only [stopInv]
      split
      · intro e he
        rcases (by simpa using he :
            e ∈ (stopInvList cs).2 ∨ e = Event.term n Status.invalid) with h1 | h1
        · simp only [BT.names, List.mem_cons]
          exact Or.inr (stopInvList_evNames cs e h1)
        · subst h1
          simp [BT.names, Event.evName]
      · simp
theorem stopInvList_evNames (cs : BTList) :
    ∀ e ∈ (stopInvList cs).2, e.evName ∈ cs.namesL := by
  cases cs with
  | nil => simp [stopInvList]
  | cons c r =>
      intro e he
      rcases List.mem_append.1 (by simpa [stopInvList] using he) with h1 | h1
      · simp only [BTList.namesL, List.mem_append]
        exact Or.inl (stopInv_evNames c e h1)
      · simp only [BTList.namesL, List.mem_append]
        exact Or.inr (stopInvList_evNames r e h1)
end

mutual
theorem tick_evNames (b : BT) : ∀ e ∈ (tick b).2, e.evName ∈ b.names := by
  cases b with
  | ctx n st fb =>
      intro e he
      by_cases h : st = Status.running <;> simp [tick, h] at he
      subst he
      simp [BT.names, Event.evName]
  | cnt n f r s c st =>
      intro e he
      rcases (by simpa [tick] using he :
          (¬st = Status.running ∧ e = Event.init n) ∨
          (¬countUpdate f r s (c + 1) = Status.running ∧
            e = Event.term n (countUpdate f r s (c + 1)))) with ⟨-, h⟩ | ⟨-, h⟩ <;>
        subst h <;> simp [BT.names, Event.evName]
  | seq n st cur cs =>
      intro e he
      rcases (by simpa [tick] using he :
          (¬st = Status.running ∧ e = Event.init n) ∨
          e ∈ (seqTickFrom (if st = Status.running then cur else 0) cs).events ∨
          (¬(seqTickFrom (if st = Status.running then cur else 0) cs).status
              = Status.running ∧
            e = Event.term n
              (seqTickFrom (if st = Status.running then cur else 0) cs).status)) with
        ⟨-, h⟩ | h | ⟨-, h⟩
      · subst h; simp [BT.names, Event.evName]
      · rcases seqTickFrom_evNames cs (if st = Status.running then cur else 0) e h with
          ⟨c, hc, hx⟩
        have hc' : c ∈ cs.toList := List.mem_of_mem_drop hc
        simp only [BT.names, List.mem_cons]
        exact Or.inr (mem_namesL cs c hc' _ hx)
      · subst h; simp [BT.names, Event.evName]
  | par n pol st cs =>
      intro e he
      simp only [tick] at he
      split at he
      · rcases (by simpa using he :
            (¬st = Status.running ∧ e = Event.init n) ∨ e ∈ (tickList cs).2) with
          ⟨-, h⟩ | h
        · subst h; simp [BT.names, Event.evName]
        · simp only [BT.names, List.mem_cons]
          exact Or.inr (tickList_evNames cs e h)
      · rcases (by simpa using he :
            (¬st = Status.running ∧ e = Event.init n) ∨
            e ∈ (tickList cs).2 ∨ e ∈ (stopInvList (tickList cs).1).2 ∨
            e = Event.term n (combine pol ((tickList cs).1).statuses)) with
          ⟨-, h⟩ | h | h | h
        · subst h; simp [BT.names, Event.evName]
        · simp only [BT.names, List.mem_cons]
          exact Or.inr (tickList_evNames cs e h)
        · have h4 := stopInvList_evNames ((tickList cs).1) e h
          rw [tickList_namesL cs] at h4
          simp only [BT.names, List.mem_cons]
          exact Or.inr h4
        · subst h; simp [BT.names, Event.evName]
theorem tickList_evNames (cs : BTList) :
    ∀ e ∈ (tickList cs).2, e.evName ∈ cs.namesL := by
  cases cs with
  | nil => simp [tickList]
  | cons c r =>
      intro e he
      rcases List.mem_append.1 (by simpa [tickList] using he) with h1 | h1
      · simp only [BTList.namesL, List.mem_append]
        exact Or.inl (tick_evNames c e h1)
      · simp only [BTList.namesL, List.mem_append]
        exact Or.inr (tickList_evNames r e h1)
theorem seqTickFrom_evNames :
    ∀ (cs : BTList) (k : Nat), ∀ e ∈ (seqTickFrom k cs).events,
      ∃ c ∈ cs.toList.drop k, e.evName ∈ c.names
  | .nil, k => by cases k <;> simp [seqTickFrom]
  | .cons c r, k + 1 => by
      intro e he
      have h1 := seqTickFrom_evNames r k e (by simpa [seqTickFrom] using he)
      simpa [BTList.toList] using h1
  | .cons c r, 0 => by
      intro e he
      cases h : (tick c).1.status
      case running =>
          refine ⟨c, by simp [BTList.toList], ?_⟩
          exact tick_evNames c e (by simpa [seqTickFrom, h] using he)
      case failure =>
          refine ⟨c, by simp [BTList.toList], ?_⟩
          exact tick_evNames c e (by simpa [seqTickFrom, h] using he)
      case invalid =>
          rcases (by simpa [seqTickFrom, h] using he :
              e ∈ (tick c).2 ∨ e ∈ (seqTickFrom 0 r).events) with h1 | h1
          · exact ⟨c, by simp [BTList.toList], tick_evNames c e h1⟩
          · rcases seqTickFrom_evNames r 0 e h1 with ⟨c', hc', hx⟩
            exact ⟨c', by simpa [BTList.toList] using Or.inr (List.mem_of_mem_drop hc'),
              hx⟩
      case success =>
          rcases (by simpa [seqTickFrom, h] using he :
              e ∈ (tick c).2 ∨ e ∈ (seqTickFrom 0 r).events) with h1 | h1
          · exact ⟨c, by simp [BTList.toList], tick_evNames c e h1⟩
          · rcases seqTickFrom_evNames r 0 e h1 with ⟨c', hc', hx⟩
            exact ⟨c', by simpa [BTList.toList] using Or.inr (List.mem_of_mem_drop hc'),
              hx⟩
end

/-! ## Terminate calls are counted exactly -/

theorem stopInv_eq_of_not_running {b : BT} (h : b.status ≠ Status.running) :
    stopInv b = (b, []) := by
  cases b with
  | ctx n st fb => simp only [BT.status] at h; simp [stopInv, h]
  | cnt n f r s c st => simp only [BT.status] at h; simp [stopInv, h]
  | seq n st cur cs => simp only [BT.status] at h; simp [stopInv, h]
  | par n pol st cs => simp only [BT.status] at h; simp [stopInv, h]

theorem stopInv_self_term (b : BT) (hnd : b.names.Nodup)
    (h : b.status = Status.running) : countTerm b.name (stopInv b).2 = 1 := by
  cases b with
  | ctx n st fb =>
      simp only [BT.status] at h
      simp [stopInv, h, BT.name, countTerm, isTermFor]
  | cnt n f r s c st =>
      simp only [BT.status] at h
      simp [stopInv, h, BT.name, countTerm, isTermFor]
  | seq n st cur cs =>
      simp only [BT.status] at h
      have hn : n ∉ cs.namesL := (List.nodup_cons.mp (by simpa [BT.names] using hnd)).1
      have h0 : countTerm n (stopInvList cs).2 = 0 :=
        countTerm_eq_zero (fun e he hc => hn (hc ▸ stopInvList_evNames cs e he))
      simp [stopInv, h, BT.name, countTerm_append, h0, countTerm_term_self]
  | par n pol st cs =>
      simp only [BT.status] at h
      have hn : n ∉ cs.namesL := (List.nodup_cons.mp (by simpa [BT.names] using hnd)).1
      have h0 : countTerm n (stopInvList cs).2 = 0 :=
        countTerm_eq_zero (fun e he hc => hn (hc ▸ stopInvList_evNames cs e he))
      simp [stopInv, h, BT.name, countTerm_append, h0, countTerm_term_self]

theorem tick_self_term (b : BT) (hnd : b.names.Nodup) :
    countTerm b.name (tick b).2
      = if ((tick b).1).status = Status.running then 0 else 1 := by
  cases b with
  | ctx n st fb =>
      simp only [tick, BT.status, BT.name]
      by_cases h : st = Status.running <;> simp [h, countTerm, isTermFor]
  | cnt n f r s c st =>
      simp only [tick, BT.status, BT.name]
      by_cases h : st = Status.running <;>
        by_cases h2 : countUpdate f r s (c + 1) = Status.running <;>
          simp [h, h2, countTerm, isTermFor, countTerm_append]
  | seq n st cur cs =>
      have hn : n ∉ cs.namesL := (List.nodup_cons.mp (by simpa [BT.names] using hnd)).1
      have h0 : countTerm n
          (seqTickFrom (if st = Status.running then cur else 0) cs).events = 0 :=
        countTerm_eq_zero (fun e he hc => by
          rcases seqTickFrom_evNames cs (if st = Status.running then cur else 0) e he
            with ⟨c, hcm, hx⟩
          exact hn (hc ▸ mem_namesL cs c (List.mem_of_mem_drop hcm) _ hx))
      simp only [tick, BT.status, BT.name]
      by_cases h : st = Status.running
      · have h0' : countTerm n (seqTickFrom cur cs).events = 0 := by simpa [h] using h0
        by_cases h2 : (seqTickFrom cur cs).status = Status.running <;>
          simp [h, h2, countTerm_append, h0', countTerm_term_self,
            countTerm_cons_init]
      · have h0' : countTerm n (seqTickFrom 0 cs).events = 0 := by simpa [h] using h0
        by_cases h2 : (seqTickFrom 0 cs).status = Status.running <;>
          simp [h, h2, countTerm_append, h0', countTerm_term_self,
            countTerm_cons_init]
  | par n pol st cs =>
      have hn : n ∉ cs.namesL := (List.nodup_cons.mp (by simpa [BT.names] using hnd)).1
      have hp : countTerm n (tickList cs).2 = 0 :=
        countTerm_eq_zero (fun e he hc => hn (hc ▸ tickList_evNames cs e he))
      have hq : countTerm n (stopInvList (tickList cs).1).2 = 0 :=
        countTerm_eq_zero (fun e he hc => by
          have h4 := stopInvList_evNames ((tickList cs).1) e he
          rw [tickList_namesL cs] at h4
          exact hn (hc ▸ h4))
      simp only [tick, BT.name]
      split
      case isTrue h2 =>
          by_cases h : st = Status.running <;>
            simp [h, BT.status, countTerm_append, hp, countTerm_cons_init]
      case isFalse h2 =>
          by_cases h : st = Status.running <;>
            simp [h, h2, BT.status, countTerm_append, hp, hq, countTerm_term_self,
              countTerm_cons_init]

theorem tickList_get : ∀ (cs : BTList) (i : Nat),
    ((tickList cs).1).toList[i]? = cs.toList[i]?.map (fun c => (tick c).1)
  | .nil, i => by simp [tickList, BTList.toList]
  | .cons c r, 0 => by simp [tickList, BTList.toList]
  | .cons c r, i + 1 => by simpa [tickList, BTList.toList] using tickList_get r i

theorem tickList_countTerm_running_zero : ∀ (cs : BTList), cs.namesL.Nodup →
    ∀ c' ∈ ((tickList cs).1).toList, c'.status = Status.running →
      countTerm c'.name (tickList cs).2 = 0
  | .nil, _ => by simp [tickList, BTList.toList]
  | .cons c r, hnd => by
      intro c' hc' hst
      have hnd1 : c.names.Nodup ∧ r.namesL.Nodup ∧ c.names.Disjoint r.namesL := by
        simpa [BTList.namesL, List.nodup_append] using hnd
      rcases (by simpa [tickList, BTList.toList] using hc' :
          c' = (tick c).1 ∨ c' ∈ ((tickList r).1).toList) with h | h
      · subst h
        have hself := tick_self_term c hnd1.1
        rw [hst] at hself
        have h0 : countTerm ((tick c).1).name (tick c).2 = 0 := by
          rw [tick_name c]
          simpa using hself
        have h1 : countTerm ((tick c).1).name (tickList r).2 = 0 :=
          countTerm_eq_zero (fun e he hc => by
            have hin := tickList_evNames r e he
            rw [hc, tick_name c] at hin
            exact (hnd1.2.2 (BT.name_mem_names c)) hin)
        simp [tickList, countTerm_append, h0, h1]
      · have hcn : c'.name ∈ r.namesL := by
          have h3 : c'.name ∈ ((tickList r).1).namesL :=
            mem_namesL _ c' h _ (BT.name_mem_names c')
          rwa [tickList_namesL r] at h3
        have h0 : countTerm c'.name (tick c).2 = 0 :=
          countTerm_eq_zero (fun e he hc =>
            (hnd1.2.2 (hc ▸ tick_evNames c e he)) hcn)
        have h2 := tickList_countTerm_running_zero r hnd1.2.1 c' h hst
        simp [tickList, countTerm_append, h0, h2]

theorem stopInvList_countTerm_one : ∀ (cs : BTList), cs.namesL.Nodup →
    ∀ c' ∈ cs.toList, c'.status = Status.running →
      countTerm c'.name (stopInvList cs).2 = 1
  | .nil, _ => by simp [BTList.toList]
  | .cons c r, hnd => by
      intro c' hc' hst
      have hnd1 : c.names.Nodup ∧ r.namesL.Nodup ∧ c.names.Disjoint r.namesL := by
        simpa [BTList.namesL, List.nodup_append] using hnd
      rcases (by simpa [BTList.toList] using hc' : c' = c ∨ c' ∈ r.toList) with h | h
      · subst h
        have h1 := stopInv_self_term c' hnd1.1 hst
        have h2 : countTerm c'.name (stopInvList r).2 = 0 :=
          countTerm_eq_zero (fun e he hc =>
            (hnd1.2.2 (BT.name_mem_names c')) (hc ▸ stopInvList_evNames r e he))
        simp [stopInvList, countTerm_append, h1, h2]
      · have hcn : c'.name ∈ r.namesL := mem_namesL r c' h _ (BT.name_mem_names c')
        have h0 : countTerm c'.name (stopInv c).2 = 0 :=
          countTerm_eq_zero (fun e he hc =>
            (hnd1.2.2 (hc ▸ stopInv_evNames c e he)) hcn)
        have h1 := stopInvList_countTerm_one r hnd1.2.1 c' h hst
        simp [stopInvList, countTerm_append, h0, h1]

/-! ## Parallel combination policies -/

theorem countTerm_single_term_ne {x y : String} (h : y ≠ x) (s : Status) :
    countTerm x [Event.term y s] = 0 := by
  simp [countTerm, isTermFor, h]

theorem combine_successOnOne_spec (ss : List Status) :
    (Status.success ∈ ss → combine .successOnOne ss = .success)
    ∧ ((∀ s ∈ ss, s = Status.failure) → combine .successOnOne ss = .failure)
    ∧ (Status.success ∉ ss → ¬(∀ s ∈ ss, s = Status.failure) →
        combine .successOnOne ss = .running) := by
  refine ⟨fun h => by simp [combine, h], fun h => ?_, fun h1 h2 => ?_⟩
  · have hns : Status.success ∉ ss := fun hm => by simpa using h _ hm
    have hall : ss.all (· = Status.failure) = true := by
      rw [List.all_eq_true]
      intro x hx
      simpa using h x hx
    simp [combine, hns, hall]
  · have hall : ¬(ss.all (· = Status.failure) = true) := by
      rw [List.all_eq_true]
      intro hall
      exact h2 (fun s hs => by simpa using hall s hs)
    simp [combine, h1, hall]

theorem combine_successOnAll_spec (ss : List Status) :
    (Status.failure ∈ ss → combine .successOnAll ss = .failure)
    ∧ (Status.running ∈ ss → Status.failure ∉ ss →
        combine .successOnAll ss = .running)
    ∧ (combine .successOnAll ss = .success → ∀ s ∈ ss, s = Status.success) := by
  refine ⟨fun h => by simp [combine, h], fun hr hf => ?_, fun h => ?_⟩
  · have hall : ¬(ss.all (· = Status.success) = true) := by
      rw [List.all_eq_true]
      intro hall
      simpa using hall _ hr
    simp [combine, hf, hall]
  · by_cases hf : Status.failure ∈ ss
    · simp [combine, hf] at h
    · by_cases hall : ss.all (· = Status.success) = true
      · intro s hs
        simpa using List.all_eq_true.1 hall s hs
      · simp [combine, hf, hall] at h

theorem tick_par_eq (n : String) (pol : ParallelPolicy) (st : Status) (cs : BTList) :
    tick (BT.par n pol st cs)
      = (BT.par n pol (combine pol ((tickList cs).1).statuses)
          (if combine pol ((tickList cs).1).statuses = Status.running
            then (tickList cs).1 else (stopInvList (tickList cs).1).1),
        (if st = Status.running then [] else [Event.init n]) ++ (tickList cs).2
          ++ (if combine pol ((tickList cs).1).statuses = Status.running then []
              else (stopInvList (tickList cs).1).2
                ++ [Event.term n (combine pol ((tickList cs).1).statuses)])) := by
  simp only [tick]
  split
  case isTrue h => simp [h]
  case isFalse h => simp [h]

theorem statuses_get (cs : BTList) (i : Nat) :
    (((tickList cs).1).statuses)[i]?
      = cs.toList[i]?.map (fun c => ((tick c).1).status) := by
  simp [BTList.statuses, List.getElem?_map, tickList_get cs i, Option.map_map]
  rfl

/-! ## Sequence helper lemmas -/

theorem mem_take_of_getElem {l : List BT} {j k : Nat} {c : BT} (hj : j < k)
    (h : l[j]? = some c) : c ∈ l.take k :=
  List.getElem?_mem ((List.getElem?_take_of_lt hj).trans h)

theorem mem_drop_of_getElem {l : List BT} {j k : Nat} {c : BT} (hj : k ≤ j)
    (h : l[j]? = some c) : c ∈ l.drop k := by
  refine List.getElem?_mem (n := j - k) ?_
  rw [List.getElem?_drop]
  rwa [Nat.add_sub_cancel' hj]

theorem names_take_drop_disjoint (cs : BTList) (hnd : cs.namesL.Nodup) (k : Nat) :
    (namesOfList (cs.toList.take k)).Disjoint (namesOfList (cs.toList.drop k)) := by
  have h1 : cs.namesL
      = namesOfList (cs.toList.take k) ++ namesOfList (cs.toList.drop k) := by
    rw [namesL_eq, ← namesOfList_append, List.take_append_drop]
  rw [h1] at hnd
  exact (List.nodup_append.1 hnd).2.2

theorem seqT_skip : ∀ (cs : BTList) (k j : Nat), j < k →
    ((seqTickFrom k cs).children).toList[j]? = cs.toList[j]?
  | .nil, k, j => by
      intro hj
      cases k with
      | zero => omega
      | succ k => simp [seqTickFrom]
  | .cons c r, k + 1, 0 => by
      intro hj
      simp [seqTickFrom, BTList.toList]
  | .cons c r, k + 1, j + 1 => by
      intro hj
      simpa [seqTickFrom, BTList.toList] using seqT_skip r k j (by omega)
  | .cons c r, 0, j => by intro hj; omega

theorem seqT_run : ∀ (cs : BTList) (k : Nat),
    (seqTickFrom k cs).status = Status.running →
    k ≤ (seqTickFrom k cs).cur
    ∧ (∀ j : Nat, k ≤ j → j < (seqTickFrom k cs).cur →
        ∀ c, ((seqTickFrom k cs).children).toList[j]? = some c →
          c.status = Status.success)
    ∧ (∀ c, ((seqTickFrom k cs).children).toList[(seqTickFrom k cs).cur]? = some c →
        c.status = Status.running)
  | .nil, k => by intro h; simp [seqTickFrom] at h
  | .cons c r, k + 1 => by
      intro h
      have h' : (seqTickFrom k r).status = Status.running := by
        simpa [seqTickFrom] using h
      obtain ⟨h1, h2, h3⟩ := seqT_run r k h'
      refine ⟨?_, ?_, ?_⟩
      · simp only [seqTickFrom]
        omega
      · intro j hjk hjc c' hc'
        simp only [seqTickFrom] at hjc hc'
        cases j with
        | zero => omega
        | succ j =>
            exact h2 j (by omega) (by omega) c'
              (by simpa [BTList.toList] using hc')
      · intro c' hc'
        simp only [seqTickFrom, BTList.toList] at hc'
        exact h3 c' (by simpa using hc')
  | .cons c r, 0 => by
      intro h
      cases hs : (tick c).1.status
      case invalid => exact absurd hs (tick_status_ne_invalid c)
      case running =>
          refine ⟨Nat.zero_le _, ?_, ?_⟩
          · intro j hjk hjc c' hc'
            simp [seqTickFrom, hs] at hjc
          · intro c' hc'
            have hc'' : (tick c).1 = c' := by
              simpa [seqTickFrom, hs, BTList.toList] using hc'
            rw [← hc'']
            exact hs
      case failure => simp [seqTickFrom, hs] at h
      case success =>
          have h' : (seqTickFrom 0 r).status = Status.running := by
            simpa [seqTickFrom, hs] using h
          obtain ⟨h1, h2, h3⟩ := seqT_run r 0 h'
          refine ⟨Nat.zero_le _, ?_, ?_⟩
          · intro j hjk hjc c' hc'
            simp only [seqTickFrom, hs] at hjc hc'
            cases j with
            | zero =>
                have hc'' : (tick c).1 = c' := by
                  simpa [BTList.toList] using hc'
                rw [← hc'']
                exact hs
            | succ j =>
                exact h2 j (Nat.zero_le _) (by omega) c'
                  (by simpa [BTList.toList] using hc')
          · intro c' hc'
            simp only [seqTickFrom, hs, BTList.toList] at hc'
            exact h3 c' (by simpa using hc')

theorem seqT_fail_fwd : ∀ (cs : BTList) (k i : Nat) (ci : BT),
    k ≤ i → cs.toList[i]? = some ci →
    (∀ j : Nat, k ≤ j → j < i → ∀ c, cs.toList[j]? = some c →
      ((tick c).1).status = Status.success) →
    ((tick ci).1).status = Status.failure →
    (seqTickFrom k cs).status = Status.failure
    ∧ ((seqTickFrom k cs).children).toList.drop (i + 1) = cs.toList.drop (i + 1)
    ∧ (∀ e ∈ (seqTickFrom k cs).events,
        ∃ j : Nat, j ≤ i ∧ ∃ c, cs.toList[j]? = some c ∧ e.evName ∈ c.names)
  | .nil, k, i, ci => by
      intro hki hci
      simp [BTList.toList] at hci
  | .cons c r, k + 1, i, ci => by
      intro hki hci hprev hfail
      cases i with
      | zero => omega
      | succ i =>
          have hci' : r.toList[i]? = some ci := by simpa [BTList.toList] using hci
          have hprev' : ∀ j : Nat, k ≤ j → j < i → ∀ c0, r.toList[j]? = some c0 →
              ((tick c0).1).status = Status.success := by
            intro j hj1 hj2 c0 hc0
            exact hprev (j + 1) (by omega) (by omega) c0
              (by simpa [BTList.toList] using hc0)
          obtain ⟨h1, h2, h3⟩ := seqT_fail_fwd r k i ci (by omega) hci' hprev' hfail
          refine ⟨by simpa [seqTickFrom] using h1, ?_, ?_⟩
          · simpa [seqTickFrom, BTList.toList, List.drop_succ_cons] using h2
          · intro e he
            have he' : e ∈ (seqTickFrom k r).events := by
              simpa [seqTickFrom] using he
            obtain ⟨j, hj, c0, hc0, hx⟩ := h3 e he'
            exact ⟨j + 1, by omega, c0, by simpa [BTList.toList] using hc0, hx⟩
  | .cons c r, 0, i, ci => by
      intro hki hci hprev hfail
      cases i with
      | zero =>
          have hcc : c = ci := by simpa [BTList.toList] using hci
          subst hcc
          refine ⟨by simp [seqTickFrom, hfail], ?_, ?_⟩
          · simp [seqTickFrom, hfail, BTList.toList, List.drop_succ_cons]
          · intro e he
            refine ⟨0, Nat.le_refl 0, c, by simp [BTList.toList], ?_⟩
            exact tick_evNames c e (by simpa [seqTickFrom, hfail] using he)
      | succ i =>
          have hs : ((tick c).1).status = Status.success :=
            hprev 0 (Nat.zero_le _) (by omega) c (by simp [BTList.toList])
          have hci' : r.toList[i]? = some ci := by simpa [BTList.toList] using hci
          have hprev' : ∀ j : Nat, 0 ≤ j → j < i → ∀ c0, r.toList[j]? = some c0 →
              ((tick c0).1).status = Status.success := by
            intro j hj1 hj2 c0 hc0
            exact hprev (j + 1) (by omega) (by omega) c0
              (by simpa [BTList.toList] using hc0)
          obtain ⟨h1, h2, h3⟩ :=
            seqT_fail_fwd r 0 i ci (Nat.zero_le _) hci' hprev' hfail
          refine ⟨by simp [seqTickFrom, hs, h1], ?_, ?_⟩
          · simpa [seqTickFrom, hs, BTList.toList, List.drop_succ_cons] using h2
          · intro e he
            rcases (by simpa [seqTickFrom, hs] using he :
                e ∈ (tick c).2 ∨ e ∈ (seqTickFrom 0 r).events) with h4 | h4
            · exact ⟨0, by omega, c, by simp [BTList.toList], tick_evNames c e h4⟩
            · obtain ⟨j, hj, c0, hc0, hx⟩ := h3 e h4
              exact ⟨j + 1, by omega, c0, by simpa [BTList.toList] using hc0, hx⟩

/-! ## Claim theorems: composite policies -/

/-- C3: a SUCCESS_ON_ONE Parallel ticks all its children in order (the
status vector it combines is exactly the per-index status of ticking each
child); it returns SUCCESS on any tick on which at least one child reports
SUCCESS, FAILURE when all children report FAILURE, RUNNING otherwise; on a
tick on which it concludes, every child still RUNNING receives exactly one
`terminate` call within that same tick, and on a tick on which it stays
RUNNING no RUNNING child receives any. -/
theorem parallel_success_on_one_spec (n : String) (st : Status) (cs : BTList)
    (hnd : (BT.par n .successOnOne st cs).names.Nodup) :
    (∀ i : Nat, (((tickList cs).1).statuses)[i]?
        = cs.toList[i]?.map (fun c => ((tick c).1).status))
    ∧ (Status.success ∈ ((tickList cs).1).statuses →
        ((tick (BT.par n .successOnOne st cs)).1).status = Status.success)
    ∧ ((∀ s ∈ ((tickList cs).1).statuses, s = Status.failure) →
        ((tick (BT.par n .successOnOne st cs)).1).status = Status.failure)
    ∧ (Status.success ∉ ((tickList cs).1).statuses →
        ¬(∀ s ∈ ((tickList cs).1).statuses, s = Status.failure) →
        ((tick (BT.par n .successOnOne st cs)).1).status = Status.running)
    ∧ (((tick (BT.par n .successOnOne st cs)).1).status ≠ Status.running →
        ∀ c' ∈ ((tickList cs).1).toList, c'.status = Status.running →
          countTerm c'.name ((tick (BT.par n .successOnOne st cs)).2) = 1)
    ∧ (((tick (BT.par n .successOnOne st cs)).1).status = Status.running →
        ∀ c' ∈ ((tickList cs).1).toList, c'.status = Status.running →
          countTerm c'.name ((tick (BT.par n .successOnOne st cs)).2) = 0) := by
  have hndL : cs.namesL.Nodup :=
    (List.nodup_cons.mp (by simpa [BT.names] using hnd)).2
  have hn : n ∉ cs.namesL :=
    (List.nodup_cons.mp (by simpa [BT.names] using hnd)).1
  have hcomb := combine_successOnOne_spec ((tickList cs).1).statuses
  have hstat : ((tick (BT.par n .successOnOne st cs)).1).status
      = combine .successOnOne ((tickList cs).1).statuses := by
    rw [tick_par_eq]
    simp [BT.status]
  refine ⟨statuses_get cs,
    fun h => by rw [hstat]; exact hcomb.1 h,
    fun h => by rw [hstat]; exact hcomb.2.1 h,
    fun h1 h2 => by rw [hstat]; exact hcomb.2.2 h1 h2,
    fun hne c' hc' hst => ?_, fun hrun c' hc' hst => ?_⟩
  · have hcn : c'.name ∈ cs.namesL := by
      have h3 : c'.name ∈ ((tickList cs).1).namesL :=
        mem_namesL _ c' hc' _ (BT.name_mem_names c')
      rwa [tickList_namesL cs] at h3
    have hne' : combine .successOnOne ((tickList cs).1).statuses ≠ Status.running :=
      fun h => hne (hstat.trans h)
    have h0 : countTerm c'.name (tickList cs).2 = 0 :=
      tickList_countTerm_running_zero cs hndL c' hc' hst
    have hndL' : ((tickList cs).1).namesL.Nodup := by rwa [tickList_namesL cs]
    have h1 : countTerm c'.name (stopInvList (tickList cs).1).2 = 1 :=
      stopInvList_countTerm_one ((tickList cs).1) hndL' c' hc' hst
    have h2 : countTerm c'.name [Event.term n
        (combine .successOnOne ((tickList cs).1).statuses)] = 0 :=
      countTerm_single_term_ne (fun hx => hn (by rw [hx]; exact hcn)) _
    rw [tick_par_eq]
    by_cases h : st = Status.running <;>
      simp [h, hne', countTerm_append, h0, h1, h2, countTerm_cons_init]
  · have hrun' : combine .successOnOne ((tickList cs).1).statuses = Status.running :=
      hstat.symm.trans hrun
    have h0 : countTerm c'.name (tickList cs).2 = 0 :=
      tickList_countTerm_running_zero cs hndL c' hc' hst
    rw [tick_par_eq]
    by_cases h : st = Status.running <;>
      simp [h, hrun', countTerm_append, h0, countTerm_cons_init]

/-- C3 witness: a concrete SUCCESS_ON_ONE Parallel over a succeeding Count
and a RUNNING ContextSwitch concludes SUCCESS and delivers exactly one
terminate call to the RUNNING child within the same tick. -/
theorem parallel_success_on_one_spec_witness :
    ((tick (BT.par "p" .successOnOne Status.invalid
        (.cons (BT.cnt "a" 0 0 5 0 Status.invalid)
          (.cons (BT.ctx "b" Status.invalid "x") .nil)))).1).status = Status.success
    ∧ countTerm "b" ((tick (BT.par "p" .successOnOne Status.invalid
        (.cons (BT.cnt "a" 0 0 5 0 Status.invalid)
          (.cons (BT.ctx "b" Status.invalid "x") .nil)))).2) = 1 := by
  have h := parallel_success_on_one_spec "p" Status.invalid
    (.cons (BT.cnt "a" 0 0 5 0 Status.invalid)
      (.cons (BT.ctx "b" Status.invalid "x") .nil)) (by decide)
  have hs := h.2.1 (by decide)
  refine ⟨hs, ?_⟩
  have hterm := h.2.2.2.2.1 (by rw [hs]; decide)
    (BT.ctx "b" Status.running "new context") (by decide) (by decide)
  exact hterm

/-- C4: if, on a tick of a Sequence, the children before index `i` in the
ticked region report SUCCESS and the child at index `i` reports FAILURE,
then the Sequence returns FAILURE on that tick, the children at indices
greater than `i` are not ticked (they are returned unchanged and no
lifecycle event of the tick concerns them), and in particular the Sequence
does not terminate them itself. -/
theorem sequence_failure_halts (n : String) (st : Status) (cur : Nat)
    (cs : BTList) (i : Nat) (ci : BT)
    (hnd : (BT.seq n st cur cs).names.Nodup)
    (hki : (if st = Status.running then cur else 0) ≤ i)
    (hci : cs.toList[i]? = some ci)
    (hprev : ∀ j : Nat, (if st = Status.running then cur else 0) ≤ j → j < i →
      ∀ c, cs.toList[j]? = some c → ((tick c).1).status = Status.success)
    (hfail : ((tick ci).1).status = Status.failure) :
    ((tick (BT.seq n st cur cs)).1).status = Status.failure
    ∧ ((tick (BT.seq n st cur cs)).1).childList.drop (i + 1)
        = cs.toList.drop (i + 1)
    ∧ (∀ c ∈ cs.toList.drop (i + 1),
        countTerm c.name ((tick (BT.seq n st cur cs)).2) = 0
        ∧ countInit c.name ((tick (BT.seq n st cur cs)).2) = 0) := by
  have hndL : cs.namesL.Nodup :=
    (List.nodup_cons.mp (by simpa [BT.names] using hnd)).2
  have hn : n ∉ cs.namesL :=
    (List.nodup_cons.mp (by simpa [BT.names] using hnd)).1
  obtain ⟨h1, h2, h3⟩ :=
    seqT_fail_fwd cs (if st = Status.running then cur else 0) i ci hki hci hprev hfail
  have hchild : ((tick (BT.seq n st cur cs)).1).childList
      = ((seqTickFrom (if st = Status.running then cur else 0) cs).children).toList := by
    simp [tick, BT.childList]
  have hev : ∀ e ∈ (tick (BT.seq n st cur cs)).2, e.evName = n ∨
      e ∈ (seqTickFrom (if st = Status.running then cur else 0) cs).events := by
    intro e he
    rcases (by simpa [tick] using he :
        (¬st = Status.running ∧ e = Event.init n) ∨
        e ∈ (seqTickFrom (if st = Status.running then cur else 0) cs).events ∨
        (¬(seqTickFrom (if st = Status.running then cur else 0) cs).status
            = Status.running ∧
          e = Event.term n
            (seqTickFrom (if st = Status.running then cur else 0) cs).status)) with
      ⟨-, h⟩ | h | ⟨-, h⟩
    · subst h; exact Or.inl rfl
    · exact Or.inr h
    · subst h; exact Or.inl rfl
  refine ⟨by simpa [tick, BT.status] using h1, by rw [hchild]; exact h2, ?_⟩
  intro c hc
  have hname_c : c.name ∈ cs.namesL :=
    mem_namesL cs c (List.mem_of_mem_drop hc) _ (BT.name_mem_names c)
  have hcdrop : c.name ∈ namesOfList (cs.toList.drop (i + 1)) :=
    mem_namesOfList hc (BT.name_mem_names c)
  have hdisj := names_take_drop_disjoint cs hndL (i + 1)
  have hzero : ∀ e ∈ (tick (BT.seq n st cur cs)).2, e.evName ≠ c.name := by
    intro e he hceq
    rcases hev e he with h | h
    · exact hn (by rw [h.symm.trans hceq]; exact hname_c)
    · obtain ⟨j, hj, c0, hc0, hx⟩ := h3 e h
      have h5 : e.evName ∈ namesOfList (cs.toList.take (i + 1)) :=
        mem_namesOfList (mem_take_of_getElem (by omega) hc0) hx
      exact (hdisj h5) (by rw [hceq]; exact hcdrop)
  exact ⟨countTerm_eq_zero hzero, countInit_eq_zero hzero⟩

/-- C4 witness: a concrete fresh Sequence whose first child fails on the
tick returns FAILURE and leaves the later child untouched by any lifecycle
event. -/
theorem sequence_failure_halts_witness :
    ((tick (BT.seq "s" Status.invalid 0
        (.cons (BT.cnt "f" 3 5 9 0 Status.invalid)
          (.cons (BT.cnt "g" 0 2 10 0 Status.invalid) .nil)))).1).status
      = Status.failure
    ∧ countTerm "g" ((tick (BT.seq "s" Status.invalid 0
        (.cons (BT.cnt "f" 3 5 9 0 Status.invalid)
          (.cons (BT.cnt "g" 0 2 10 0 Status.invalid) .nil)))).2) = 0 := by
  have h := sequence_failure_halts "s" Status.invalid 0
    (.cons (BT.cnt "f" 3 5 9 0 Status.invalid)
      (.cons (BT.cnt "g" 0 2 10 0 Status.invalid) .nil)) 0
    (BT.cnt "f" 3 5 9 0 Status.invalid) (by decide) (by decide) (by decide)
    (fun j _ hj => (Nat.not_lt_zero j hj).elim) (by decide)
  exact ⟨h.1, (h.2.2 (BT.cnt "g" 0 2 10 0 Status.invalid) (by decide)).1⟩

/-- C5: on a tick of a RUNNING Sequence whose progress index is `cur` and
whose children before `cur` are all SUCCESS, ticking starts from `cur`: the
children before `cur` are returned unchanged and receive no lifecycle event
(once a child succeeds it is never re-ticked while the run continues); if
the Sequence stays RUNNING the progress index never decreases, the children
before the new index are all SUCCESS (the index is the first non-SUCCESS
child of the tick) and the child at the new index is the RUNNING one. -/
theorem sequence_progress_monotonic (n : String) (cur : Nat) (cs : BTList)
    (hnd : (BT.seq n Status.running cur cs).names.Nodup)
    (hinv : ∀ j : Nat, j < cur → ∀ c, cs.toList[j]? = some c →
      c.status = Status.success) :
    (∀ j : Nat, j < cur →
      ((tick (BT.seq n Status.running cur cs)).1).childList[j]? = cs.toList[j]?)
    ∧ (∀ j : Nat, j < cur → ∀ c, cs.toList[j]? = some c →
        countTerm c.name ((tick (BT.seq n Status.running cur cs)).2) = 0
        ∧ countInit c.name ((tick (BT.seq n Status.running cur cs)).2) = 0)
    ∧ (((tick (BT.seq n Status.running cur cs)).1).status = Status.running →
        cur ≤ ((tick (BT.seq n Status.running cur cs)).1).curOf)
    ∧ (((tick (BT.seq n Status.running cur cs)).1).status = Status.running →
        ∀ j : Nat, j < ((tick (BT.seq n Status.running cur cs)).1).curOf →
          ∀ c, ((tick (BT.seq n Status.running cur cs)).1).childList[j]? = some c →
            c.status = Status.success)
    ∧ (((tick (BT.seq n Status.running cur cs)).1).status = Status.running →
        ∀ c, ((tick (BT.seq n Status.running cur cs)).1).childList[
            ((tick (BT.seq n Status.running cur cs)).1).curOf]? = some c →
          c.status = Status.running) := by
  have hndL : cs.namesL.Nodup :=
    (List.nodup_cons.mp (by simpa [BT.names] using hnd)).2
  have hn : n ∉ cs.namesL :=
    (List.nodup_cons.mp (by simpa [BT.names] using hnd)).1
  have hchild : ((tick (BT.seq n Status.running cur cs)).1).childList
      = ((seqTickFrom cur cs).children).toList := by
    simp [tick, BT.childList]
  have hstat : ((tick (BT.seq n Status.running cur cs)).1).status
      = (seqTickFrom cur cs).status := by
    simp [tick, BT.status]
  have hcur : ((tick (BT.seq n Status.running cur cs)).1).curOf
      = (seqTickFrom cur cs).cur := by
    simp [tick, BT.curOf]
  have hev : ∀ e ∈ (tick (BT.seq n Status.running cur cs)).2,
      e.evName = n ∨ e ∈ (seqTickFrom cur cs).events := by
    intro e he
    rcases (by simpa [tick] using he :
        e ∈ (seqTickFrom cur cs).events ∨
        (¬(seqTickFrom cur cs).status = Status.running ∧
          e = Event.term n (seqTickFrom cur cs).status)) with h | ⟨-, h⟩
    · exact Or.inr h
    · subst h; exact Or.inl rfl
  refine ⟨?_, ?_, ?_, ?_, ?_⟩
  · intro j hj
    rw [hchild]
    exact seqT_skip cs cur j hj
  · intro j hj c hc
    have hname_c : c.name ∈ cs.namesL :=
      mem_namesL cs c (List.getElem?_mem hc) _ (BT.name_mem_names c)
    have hctake : c.name ∈ namesOfList (cs.toList.take cur) :=
      mem_namesOfList (mem_take_of_getElem hj hc) (BT.name_mem_names c)
    have hdisj := names_take_drop_disjoint cs hndL cur
    have hzero : ∀ e ∈ (tick (BT.seq n Status.running cur cs)).2,
        e.evName ≠ c.name := by
      intro e he hceq
      rcases hev e he with h | h
      · exact hn (by rw [h.symm.trans hceq]; exact hname_c)
      · obtain ⟨c0, hc0, hx⟩ := seqTickFrom_evNames cs cur e h
        have h5 : e.evName ∈ namesOfList (cs.toList.drop cur) :=
          mem_namesOfList hc0 hx
        exact (hdisj hctake) (hceq ▸ h5)
    exact ⟨countTerm_eq_zero hzero, countInit_eq_zero hzero⟩
  · intro hrun
    rw [hcur]
    exact (seqT_run cs cur (hstat.symm.trans hrun)).1
  · intro hrun j hj c hc
    rw [hcur] at hj
    rw [hchild] at hc
    by_cases hjc : j < cur
    · exact hinv j hjc c ((seqT_skip cs cur j hjc).symm.trans hc)
    · exact (seqT_run cs cur (hstat.symm.trans hrun)).2.1 j (by omega) hj c hc
  · intro hrun c hc
    rw [hcur, hchild] at hc
    exact (seqT_run cs cur (hstat.symm.trans hrun)).2.2 c hc

/-- C5 witness: a concrete RUNNING Sequence past its first (already
SUCCESS) child does not re-tick that child and keeps a non-decreasing
progress index while RUNNING. -/
theorem sequence_progress_monotonic_witness :
    (1 ≤ ((tick (BT.seq "s" Status.running 1
        (.cons (BT.cnt "a" 0 2 10 2 Status.success)
          (.cons (BT.cnt "b" 0 2 10 0 Status.running) .nil)))).1).curOf)
    ∧ countTerm "a" ((tick (BT.seq "s" Status.running 1
        (.cons (BT.cnt "a" 0 2 10 2 Status.success)
          (.cons (BT.cnt "b" 0 2 10 0 Status.running) .nil)))).2) = 0 := by
  have h := sequence_progress_monotonic "s" 1
    (.cons (BT.cnt "a" 0 2 10 2 Status.success)
      (.cons (BT.cnt "b" 0 2 10 0 Status.running) .nil)) (by decide)
    (fun j hj c hc => by
      have hj0 : j = 0 := by omega
      subst hj0
      have hc' : BT.cnt "a" 0 2 10 2 Status.success = c := by
        simpa [BTList.toList] using hc
      rw [← hc']
      rfl)
  exact ⟨h.2.2.1 (by decide), (h.2.1 0 (by decide)
    (BT.cnt "a" 0 2 10 2 Status.success) (by decide)).1⟩

/-- C6: a SUCCESS_ON_ALL Parallel combines the per-index statuses of ticking
every child: it returns RUNNING while at least one child reports RUNNING and
none reports FAILURE, FAILURE on any tick on which some child reports
FAILURE, and SUCCESS only when every child reports SUCCESS. -/
theorem parallel_success_on_all_spec (n : String) (st : Status) (cs : BTList) :
    (∀ i : Nat, (((tickList cs).1).statuses)[i]?
        = cs.toList[i]?.map (fun c => ((tick c).1).status))
    ∧ (Status.running ∈ ((tickList cs).1).statuses →
        Status.failure ∉ ((tickList cs).1).statuses →
        ((tick (BT.par n .successOnAll st cs)).1).status = Status.running)
    ∧ (Status.failure ∈ ((tickList cs).1).statuses →
        ((tick (BT.par n .successOnAll st cs)).1).status = Status.failure)
    ∧ (((tick (BT.par n .successOnAll st cs)).1).status = Status.success →
        ∀ s ∈ ((tickList cs).1).statuses, s = Status.success) := by
  have hcomb := combine_successOnAll_spec ((tickList cs).1).statuses
  have hstat : ((tick (BT.par n .successOnAll st cs)).1).status
      = combine .successOnAll ((tickList cs).1).statuses := by
    rw [tick_par_eq]
    simp [BT.status]
  exact ⟨statuses_get cs,
    fun hr hf => by rw [hstat]; exact hcomb.2.1 hr hf,
    fun hf => by rw [hstat]; exact hcomb.1 hf,
    fun hs => hcomb.2.2 (hstat.symm.trans hs)⟩

/-- C6 witness: a concrete SUCCESS_ON_ALL Parallel over a RUNNING
ContextSwitch and a succeeding Count stays RUNNING, and one over a failing
Count returns FAILURE. -/
theorem parallel_success_on_all_spec_witness :
    ((tick (BT.par "p" .successOnAll Status.invalid
        (.cons (BT.ctx "b" Status.invalid "x")
          (.cons (BT.cnt "a" 0 0 5 0 Status.invalid) .nil)))).1).status
      = Status.running
    ∧ ((tick (BT.par "q" .successOnAll Status.invalid
        (.cons (BT.cnt "c" 3 5 9 0 Status.invalid) .nil))).1).status
      = Status.failure := by
  constructor
  · exact (parallel_success_on_all_spec "p" Status.invalid
      (.cons (BT.ctx "b" Status.invalid "x")
        (.cons (BT.cnt "a" 0 0 5 0 Status.invalid) .nil))).2.1
      (by decide) (by decide)
  · exact (parallel_success_on_all_spec "q" Status.invalid
      (.cons (BT.cnt "c" 3 5 9 0 Status.invalid) .nil)).2.2.1 (by decide)

end PyTrees
